import Mathlib

/- Verification of the clickhome-migration analysis engine.

Shallow embedding of the Rust sources:
  crates/ch-core/src/types/{model,import,file,status,location}.rs
  crates/ch-ts-parser/src/{source,arena,exports}.rs
  crates/ch-scanner/src/{analyzer,cache,lib}.rs

Strings are modelled as lists of characters (`Str`), maps (`FxHashMap`) as
association lists with insert-replaces-value semantics, and sets (`FxHashSet`)
as duplicate-free insertion lists.  All definitions are executable. -/

set_option autoImplicit false

namespace CH

/-- Rust `String` and string slices, modelled as a list of characters. -/
abbrev Str := List Char

/-- Rust `str::starts_with`: `strStartsWith s p` is true when `p` is a prefix of `s`. -/
def strStartsWith : Str → Str → Bool
  | _, [] => true
  | [], _ :: _ => false
  | c :: s, d :: p => c == d && strStartsWith s p

/-- Rust `str::contains`: `strContainsSub s p` is true when `p` occurs inside `s`. -/
def strContainsSub : Str → Str → Bool
  | [], p => strStartsWith [] p
  | c :: s, p => strStartsWith (c :: s) p || strContainsSub s p

/-- Rust `str::ends_with`: `p` is a suffix of `s`. -/
def strEndsWith (s p : Str) : Bool :=
  strStartsWith s.reverse p.reverse

theorem strStartsWith_iff (s p : Str) :
    strStartsWith s p = true ↔ ∃ b, s = p ++ b := by
  induction p generalizing s with
  | nil => simp [strStartsWith]
  | cons d p ih =>
    cases s with
    | nil => simp [strStartsWith]
    | cons c s =>
      simp only [strStartsWith, Bool.and_eq_true, beq_iff_eq, ih, List.cons_append,
        List.cons.injEq]
      constructor
      · rintro ⟨rfl, b, rfl⟩; exact ⟨b, rfl, rfl⟩
      · rintro ⟨b, rfl, rfl⟩; exact ⟨rfl, b, rfl⟩

theorem strContainsSub_iff (s p : Str) :
    strContainsSub s p = true ↔ ∃ a b, s = a ++ p ++ b := by
  induction s with
  | nil =>
    simp only [strContainsSub, strStartsWith_iff]
    constructor
    · rintro ⟨b, h⟩; exact ⟨[], b, by simpa using h⟩
    · rintro ⟨a, b, h⟩
      rcases List.append_eq_nil.mp (List.append_eq_nil.mp h.symm).1 with ⟨ha, hp⟩
      exact ⟨[], by simp [hp]⟩
  | cons c s ih =>
    simp only [strContainsSub, Bool.or_eq_true, strStartsWith_iff, ih]
    constructor
    · rintro (⟨b, h⟩ | ⟨a, b, h⟩)
      · exact ⟨[], b, by simpa using h⟩
      · exact ⟨c :: a, b, by simp [h]⟩
    · rintro ⟨a, b, h⟩
      cases a with
      | nil => exact Or.inl ⟨b, by simpa using h⟩
      | cons x a =>
        simp only [List.cons_append, List.cons.injEq] at h
        exact Or.inr ⟨a, b, h.2⟩

end CH

namespace CH

/-- `ch_core::ModelSource` (types/model.rs): which shared directory a model
comes from. -/
inductive ModelSource where
  | SharedLegacy
  | Shared2023
deriving DecidableEq, Repr

/-- `ch_core::ImportKind` (types/import.rs). -/
inductive ImportKind where
  | Named
  | Default
  | Namespace
  | SideEffect
  | TypeOnly
  | Dynamic
deriving DecidableEq, Repr

/-- `ch_core::MigrationStatus` (types/status.rs). -/
inductive MigrationStatus where
  | Legacy
  | Migrated
  | Partial
  | NoModels
deriving DecidableEq, Repr

/-- `ch_core::SourceLocation` (types/location.rs): 1-indexed line,
0-indexed column, absolute byte offset. -/
structure SourceLocation where
  line : Nat
  column : Nat
  byte_offset : Nat
deriving DecidableEq, Repr

/-- `ch_core::ImportInfo` (types/import.rs). -/
structure ImportInfo where
  path : Str
  kind : ImportKind
  names : List Str
  source : Option ModelSource
  location : SourceLocation
deriving DecidableEq, Repr

/-- `determine_status` (ch-scanner/src/analyzer.rs): inner loop state machine.
Walks the imports updating the two flags, with the early return of `Partial`
as soon as both flags are set. -/
def determineStatusGo : List ImportInfo → Bool → Bool → MigrationStatus
  | [], has_legacy, has_new =>
    match has_legacy, has_new with
    | true, false => .Legacy
    | false, true => .Migrated
    | false, false => .NoModels
    | true, true => .Partial
  | imp :: rest, has_legacy, has_new =>
    let has_legacy' :=
      match imp.source with
      | some .SharedLegacy => true
      | _ => has_legacy
    let has_new' :=
      match imp.source with
      | some .Shared2023 => true
      | _ => has_new
    if has_legacy' && has_new' then .Partial
    else determineStatusGo rest has_legacy' has_new'

/-- `determine_status` (ch-scanner/src/analyzer.rs). -/
def determine_status (imports : List ImportInfo) : MigrationStatus :=
  determineStatusGo imports false false

/-- Boolean: some import in the list carries the given source tag. -/
def anySource (imports : List ImportInfo) (src : ModelSource) : Bool :=
  imports.any (fun imp => imp.source == some src)

/-- The final `match` of `determine_status`, as a function of the two flags. -/
def statusOfFlags : Bool → Bool → MigrationStatus
  | true, false => .Legacy
  | false, true => .Migrated
  | false, false => .NoModels
  | true, true => .Partial

theorem determineStatusGo_eq (imports : List ImportInfo) (hl hn : Bool) :
    determineStatusGo imports hl hn =
      statusOfFlags (hl || anySource imports .SharedLegacy)
        (hn || anySource imports .Shared2023) := by
  induction imports generalizing hl hn with
  | nil => cases hl <;> cases hn <;> rfl
  | cons imp rest ih =>
    rcases himp : imp.source with _ | src
    · cases hl <;> cases hn <;>
        simp [determineStatusGo, himp, anySource, List.any_cons, statusOfFlags, ih]
    · cases src <;> cases hl <;> cases hn <;>
        simp [determineStatusGo, himp, anySource, List.any_cons, statusOfFlags, ih] <;>
          rfl

theorem anySource_iff (imports : List ImportInfo) (src : ModelSource) :
    anySource imports src = true ↔ ∃ imp ∈ imports, imp.source = some src := by
  simp [anySource]

/-- C1.  For every list of ImportRecords, the status computed by
`determine_status` is: `Partial` iff the list has a Legacy-sourced and a
Modern-sourced import; `Legacy` iff a Legacy-sourced one and no Modern-sourced
one; `Migrated` iff a Modern-sourced one and no Legacy-sourced one; and
`NoModels` otherwise (in particular for the empty list). -/
theorem determine_status_characterization (imports : List ImportInfo) :
    (determine_status imports = .Partial ↔
      ((∃ imp ∈ imports, imp.source = some .SharedLegacy) ∧
        (∃ imp ∈ imports, imp.source = some .Shared2023))) ∧
    (determine_status imports = .Legacy ↔
      ((∃ imp ∈ imports, imp.source = some .SharedLegacy) ∧
        ¬(∃ imp ∈ imports, imp.source = some .Shared2023))) ∧
    (determine_status imports = .Migrated ↔
      (¬(∃ imp ∈ imports, imp.source = some .SharedLegacy) ∧
        (∃ imp ∈ imports, imp.source = some .Shared2023))) ∧
    (determine_status imports = .NoModels ↔
      (¬(∃ imp ∈ imports, imp.source = some .SharedLegacy) ∧
        ¬(∃ imp ∈ imports, imp.source = some .Shared2023))) := by
  have hgo := determineStatusGo_eq imports false false
  have hleg := anySource_iff imports .SharedLegacy
  have hnew := anySource_iff imports .Shared2023
  rw [determine_status, hgo]
  simp only [Bool.false_or]
  rcases hL : anySource imports .SharedLegacy with _ | _ <;>
    rcases hN : anySource imports .Shared2023 with _ | _ <;>
      simp_all [statusOfFlags]

end CH

namespace CH

/-- Predicate of the char pattern in `strip_quotes` (ch-ts-parser/src/source.rs):
matches a double or single quote. -/
def isQuoteChar (c : Char) : Bool :=
  c == '"' || c == '\''

/-- `strip_quotes` (ch-ts-parser/src/source.rs): `trim_matches` removing every
leading and trailing quote character. -/
def strip_quotes (s : Str) : Str :=
  ((s.dropWhile isQuoteChar).reverse.dropWhile isQuoteChar).reverse

/-- `is_shared_2023_model_import` (ch-ts-parser/src/source.rs). -/
def is_shared_2023_model_import (path : Str) : Bool :=
  strContainsSub path ("/shared_2023/models".toList)
    || strStartsWith path ("shared_2023/models".toList)
    || strContainsSub path ("/shared_2023/interfaces".toList)
    || strStartsWith path ("shared_2023/interfaces".toList)
    || strEndsWith path ("/shared_2023/models".toList)
    || strEndsWith path ("/shared_2023/interfaces".toList)
    || path == "shared_2023/models".toList
    || path == "shared_2023/interfaces".toList

/-- `is_shared_legacy_model_import` (ch-ts-parser/src/source.rs): any path
containing the modern marker is excluded before the legacy patterns are
tried. -/
def is_shared_legacy_model_import (path : Str) : Bool :=
  if strContainsSub path ("shared_2023".toList) then false
  else
    strContainsSub path ("/shared/models".toList)
      || strStartsWith path ("shared/models".toList)
      || strContainsSub path ("/shared/interfaces".toList)
      || strStartsWith path ("shared/interfaces".toList)
      || strEndsWith path ("/shared/models".toList)
      || strEndsWith path ("/shared/interfaces".toList)
      || path == "shared/models".toList
      || path == "shared/interfaces".toList

/-- `detect_model_source` (ch-ts-parser/src/source.rs): modern checked first,
then legacy, else `None`. -/
def detect_model_source (import_path : Str) : Option ModelSource :=
  let path := strip_quotes import_path
  if is_shared_2023_model_import path then some .Shared2023
  else if is_shared_legacy_model_import path then some .SharedLegacy
  else none

theorem markerSurvivesDropWhile (c : Char) (p : Str) (hc : isQuoteChar c = false) :
    ∀ s a b : Str, s = a ++ (c :: p) ++ b →
      ∃ u v, s.dropWhile isQuoteChar = u ++ (c :: p) ++ v := by
  intro s a
  induction a generalizing s with
  | nil =>
    intro b h
    subst h
    simp only [List.nil_append, List.cons_append, List.dropWhile_cons, hc]
    exact ⟨[], b, by simp⟩
  | cons x a ih =>
    intro b h
    subst h
    rcases hx : isQuoteChar x with _ | _
    · exact ⟨x :: a, b, by simp [List.dropWhile_cons, hx]⟩
    · have := ih (a ++ (c :: p) ++ b) b rfl
      simpa [List.dropWhile_cons, hx] using this

theorem markerSurvivesStrip (c d : Char) (p : Str)
    (hc : isQuoteChar c = false) (hd : isQuoteChar d = false) :
    ∀ s a b : Str, s = a ++ ((c :: p) ++ [d]) ++ b →
      ∃ u v, strip_quotes s = u ++ ((c :: p) ++ [d]) ++ v := by
  intro s a b h
  obtain ⟨u₁, v₁, h₁⟩ :=
    markerSurvivesDropWhile c (p ++ [d]) hc s a b (by rw [h]; simp)
  have h₂ : (s.dropWhile isQuoteChar).reverse
      = v₁.reverse ++ (d :: ((c :: p).reverse)) ++ u₁.reverse := by
    rw [h₁]; simp
  obtain ⟨u₂, v₂, h₃⟩ :=
    markerSurvivesDropWhile d ((c :: p).reverse) hd _ _ _ h₂
  refine ⟨v₂.reverse, u₂.reverse, ?_⟩
  have : strip_quotes s
      = (((s.dropWhile isQuoteChar).reverse).dropWhile isQuoteChar).reverse := rfl
  rw [this, h₃]
  simp

/-- C2.  Any import path containing the modern marker string is never
classified Legacy by `detect_model_source`; in particular the path
"shared_2023/shared/models/foo" yields `None`. -/
theorem detect_model_source_never_legacy_on_modern_marker :
    (∀ path : Str, strContainsSub path ("shared_2023".toList) = true →
      detect_model_source path ≠ some .SharedLegacy) ∧
    detect_model_source ("shared_2023/shared/models/foo".toList) = none := by
  constructor
  · intro path hpath
    obtain ⟨a, b, hdecomp⟩ := (strContainsSub_iff _ _).mp hpath
    have hsplit : ("shared_2023".toList : Str)
        = ('s' :: "hared_202".toList) ++ ['3'] := by decide
    obtain ⟨u, v, hstrip⟩ :=
      markerSurvivesStrip 's' '3' ("hared_202".toList) (by decide) (by decide)
        path a b (by rw [hdecomp, hsplit])
    have hcontains : strContainsSub (strip_quotes path) ("shared_2023".toList) = true := by
      rw [strContainsSub_iff]
      exact ⟨u, v, by rw [hstrip, hsplit]⟩
    have hlegacy : is_shared_legacy_model_import (strip_quotes path) = false := by
      unfold is_shared_legacy_model_import
      rw [hcontains]
      simp
    intro hcontra
    rw [detect_model_source] at hcontra
    rcases h2023 : is_shared_2023_model_import (strip_quotes path) with _ | _ <;>
      simp [h2023, hlegacy] at hcontra
  · decide

end CH

namespace CH

/-- The mutating methods of `BumpImportBuilder` (ch-ts-parser/src/arena.rs),
as operations applied to a freshly constructed builder. -/
inductive BuilderOp where
  | setSource (path : Str)
  | addNamedImport (name : Str)
  | setDefaultImport (name : Str)
  | setNamespaceImport (name : Str)
deriving DecidableEq, Repr

/-- `BumpImportBuilder` (ch-ts-parser/src/arena.rs). -/
structure BumpImportBuilder where
  source_path : Option Str
  names : List Str
  kind : Option ImportKind
  location : SourceLocation
  is_type_only : Bool
deriving DecidableEq, Repr

/-- `BumpImportBuilder::new` (ch-ts-parser/src/arena.rs). -/
def BumpImportBuilder.new (location : SourceLocation) (tOnly : Bool) :
    BumpImportBuilder :=
  ⟨none, [], none, location, tOnly⟩

/-- One builder method call: `set_source`, `add_named_import`,
`set_default_import` or `set_namespace_import` (ch-ts-parser/src/arena.rs). -/
def BumpImportBuilder.applyOp (b : BumpImportBuilder) : BuilderOp → BumpImportBuilder
  | .setSource p => { b with source_path := some p }
  | .addNamedImport n =>
    { b with
      names := b.names ++ [n]
      kind := match b.kind with | none => some .Named | some k => some k }
  | .setDefaultImport n => { b with names := b.names ++ [n], kind := some .Default }
  | .setNamespaceImport n => { b with names := b.names ++ [n], kind := some .Namespace }

/-- `BumpImportBuilder::build` (ch-ts-parser/src/arena.rs): `None` without a
source path; type-only wins, then the recorded kind, then side-effect for an
empty name list, else named. -/
def BumpImportBuilder.build (b : BumpImportBuilder)
    (detect : Str → Option ModelSource) : Option ImportInfo :=
  match b.source_path with
  | none => none
  | some path =>
    let source := detect path
    let kind :=
      if b.is_type_only then ImportKind.TypeOnly
      else
        match b.kind with
        | some k => k
        | none => if b.names.isEmpty then ImportKind.SideEffect else ImportKind.Named
    some ⟨path, kind, b.names, source, b.location⟩

/-- A builder constructed at `location` with the type-only flag `tOnly`, after
the given sequence of method calls. -/
def runOps (location : SourceLocation) (tOnly : Bool) (ops : List BuilderOp) :
    BumpImportBuilder :=
  ops.foldl BumpImportBuilder.applyOp (BumpImportBuilder.new location tOnly)

/-- True for the builder calls that push a bound name. -/
def BuilderOp.bindsName : BuilderOp → Bool
  | .setSource _ => false
  | .addNamedImport _ => true
  | .setDefaultImport _ => true
  | .setNamespaceImport _ => true

/-- True exactly for `set_default_import` calls (the default-binding marker). -/
def BuilderOp.isDefaultMarker : BuilderOp → Bool
  | .setDefaultImport _ => true
  | _ => false

/-- True exactly for `set_namespace_import` calls (the namespace-binding
marker). -/
def BuilderOp.isNamespaceMarker : BuilderOp → Bool
  | .setNamespaceImport _ => true
  | _ => false

theorem applyOps_names_nil (ops : List BuilderOp) (b : BumpImportBuilder) :
    (ops.foldl BumpImportBuilder.applyOp b).names = [] ↔
      (b.names = [] ∧ ∀ op ∈ ops, op.bindsName = false) := by
  induction ops generalizing b with
  | nil => simp
  | cons op ops ih =>
    rw [List.foldl_cons, ih]
    cases op <;>
      simp [BumpImportBuilder.applyOp, BuilderOp.bindsName, and_assoc]

theorem applyOps_kind_none (ops : List BuilderOp) (b : BumpImportBuilder) :
    (ops.foldl BumpImportBuilder.applyOp b).kind = none ↔
      (b.kind = none ∧ ∀ op ∈ ops, op.bindsName = false) := by
  induction ops generalizing b with
  | nil => simp
  | cons op ops ih =>
    rw [List.foldl_cons, ih]
    cases op with
    | setSource p => simp [BumpImportBuilder.applyOp, BuilderOp.bindsName, and_assoc]
    | addNamedImport n =>
      rcases hk : b.kind with _ | k <;>
        simp [BumpImportBuilder.applyOp, BuilderOp.bindsName, hk]
    | setDefaultImport n => simp [BumpImportBuilder.applyOp, BuilderOp.bindsName]
    | setNamespaceImport n => simp [BumpImportBuilder.applyOp, BuilderOp.bindsName]

theorem applyOps_tOnly (ops : List BuilderOp) (b : BumpImportBuilder) :
    (ops.foldl BumpImportBuilder.applyOp b).is_type_only = b.is_type_only := by
  induction ops generalizing b with
  | nil => rfl
  | cons op ops ih => cases op <;> simp [List.foldl_cons, BumpImportBuilder.applyOp, ih]

theorem applyOps_kind_cases (ops : List BuilderOp) (b : BumpImportBuilder) :
    (ops.foldl BumpImportBuilder.applyOp b).kind = b.kind ∨
      (ops.foldl BumpImportBuilder.applyOp b).kind = some .Named ∨
      (ops.foldl BumpImportBuilder.applyOp b).kind = some .Default ∨
      (ops.foldl BumpImportBuilder.applyOp b).kind = some .Namespace := by
  induction ops generalizing b with
  | nil => exact Or.inl rfl
  | cons op ops ih =>
    rw [List.foldl_cons]
    rcases ih (b.applyOp op) with h | h | h | h
    · rw [h]
      cases op with
      | setSource p => exact Or.inl rfl
      | addNamedImport n =>
        rcases hk : b.kind with _ | k <;> simp [BumpImportBuilder.applyOp, hk]
      | setDefaultImport n => simp [BumpImportBuilder.applyOp]
      | setNamespaceImport n => simp [BumpImportBuilder.applyOp]
    · exact Or.inr (Or.inl h)
    · exact Or.inr (Or.inr (Or.inl h))
    · exact Or.inr (Or.inr (Or.inr h))

theorem applyOps_names_nil_kind_none (ops : List BuilderOp) (b : BumpImportBuilder)
    (hb : b.kind = none) (h : (ops.foldl BumpImportBuilder.applyOp b).names = []) :
    (ops.foldl BumpImportBuilder.applyOp b).kind = none := by
  rcases (applyOps_names_nil ops b).mp h with ⟨hn, hops⟩
  exact (applyOps_kind_none ops b).mpr ⟨hb, hops⟩

/-- C4.  For a builder finalized by `build` into an import record: if the
type-only flag was set at construction, the record kind is `TypeOnly`
regardless of bindings; and the kind is `SideEffect` iff the record's name
list is empty and neither the type-only flag nor any default or namespace
binding call was seen. -/
theorem builder_build_kind_spec (location : SourceLocation) (tOnly : Bool)
    (ops : List BuilderOp) (detect : Str → Option ModelSource) (info : ImportInfo)
    (h : (runOps location tOnly ops).build detect = some info) :
    (tOnly = true → info.kind = .TypeOnly) ∧
    (info.kind = .SideEffect ↔
      (info.names = [] ∧ tOnly = false ∧
        (∀ op ∈ ops, op.isDefaultMarker = false) ∧
        (∀ op ∈ ops, op.isNamespaceMarker = false))) := by
  set b := runOps location tOnly ops with hb
  have htO : b.is_type_only = tOnly := applyOps_tOnly ops _
  rcases hsp : b.source_path with _ | path
  · rw [BumpImportBuilder.build, hsp] at h
    exact absurd h (by simp)
  · rw [BumpImportBuilder.build, hsp] at h
    simp only [Option.some.injEq] at h
    subst h
    constructor
    · intro ht
      simp [htO, ht]
    · constructor
      · intro hse
        simp only at hse
        rcases ht : tOnly with _ | _
        · rw [htO, ht] at hse
          simp only [if_false, Bool.false_eq_true] at hse
          have hkind : b.kind = none := by
            rcases applyOps_kind_cases ops (BumpImportBuilder.new location tOnly) with
              hk | hk | hk | hk
            · rw [hb, runOps]; rw [hk]; rfl
            all_goals
              exfalso
              rw [hb, runOps] at hse
              rw [hk] at hse
              simp at hse
          rw [hkind] at hse
          have hnil : b.names = [] := by
            rcases hni : b.names.isEmpty with _ | _
            · rw [hni] at hse
              simp at hse
            · exact List.isEmpty_iff.mp hni
          have hnameless := (applyOps_names_nil ops (BumpImportBuilder.new location tOnly)).mp
            (by rw [← runOps, ← hb]; exact hnil)
          refine ⟨hnil, rfl, ?_, ?_⟩
          · intro op hop
            have := hnameless.2 op hop
            cases op <;> simp_all [BuilderOp.bindsName, BuilderOp.isDefaultMarker]
          · intro op hop
            have := hnameless.2 op hop
            cases op <;> simp_all [BuilderOp.bindsName, BuilderOp.isNamespaceMarker]
        · rw [htO, ht] at hse
          simp at hse
      · rintro ⟨hnil, ht, _, _⟩
        simp only at hnil
        have hkind : b.kind = none :=
          applyOps_names_nil_kind_none ops (BumpImportBuilder.new location tOnly) rfl
            (by rw [← runOps, ← hb]; exact hnil)
        simp [htO, ht, hkind, hnil]

/-- `create_dynamic_bump_import` (ch-ts-parser/src/arena.rs): a dynamic import
record has kind `Dynamic` and an empty name list. -/
def create_dynamic_bump_import (path : Str) (source : Option ModelSource)
    (location : SourceLocation) : ImportInfo :=
  ⟨path, .Dynamic, [], source, location⟩

/-- Witness for C4 at a concrete side-effect import. -/
theorem builder_build_kind_spec_witness :
    (runOps ⟨1, 0, 0⟩ false [BuilderOp.setSource ("./polyfills".toList)]).build
        (fun _ => none) =
      some ⟨"./polyfills".toList, .SideEffect, [], none, ⟨1, 0, 0⟩⟩ ∧
    ((⟨"./polyfills".toList, .SideEffect, [], none, ⟨1, 0, 0⟩⟩ : ImportInfo).kind
        = .SideEffect ↔
      ((⟨"./polyfills".toList, .SideEffect, [], none, ⟨1, 0, 0⟩⟩ : ImportInfo).names = [] ∧
        false = false ∧
        (∀ op ∈ [BuilderOp.setSource ("./polyfills".toList)], op.isDefaultMarker = false) ∧
        (∀ op ∈ [BuilderOp.setSource ("./polyfills".toList)],
          op.isNamespaceMarker = false))) :=
  ⟨rfl,
    (builder_build_kind_spec ⟨1, 0, 0⟩ false [BuilderOp.setSource ("./polyfills".toList)]
      (fun _ => none) ⟨"./polyfills".toList, .SideEffect, [], none, ⟨1, 0, 0⟩⟩ rfl).2⟩

end CH

namespace CH

/-- Example legacy-sourced import record, for concrete witnesses. -/
def impLegacyEx : ImportInfo :=
  ⟨"../shared/models/foo".toList, .Named, ["Foo".toList], some .SharedLegacy, ⟨1, 0, 0⟩⟩

/-- Example modern-sourced import record, for concrete witnesses. -/
def impModernEx : ImportInfo :=
  ⟨"../shared_2023/models/bar".toList, .Named, ["Bar".toList], some .Shared2023, ⟨2, 0, 0⟩⟩

/-- Witness for C1: one legacy and one modern import give `Partial`. -/
theorem determine_status_characterization_witness :
    determine_status [impLegacyEx, impModernEx] = .Partial :=
  (determine_status_characterization [impLegacyEx, impModernEx]).1.mpr
    ⟨⟨impLegacyEx, by simp, rfl⟩, ⟨impModernEx, by simp, rfl⟩⟩

/-- Witness for C2 at a concrete modern-marker path. -/
theorem detect_model_source_never_legacy_witness :
    strContainsSub ("../shared_2023/models/foo".toList) ("shared_2023".toList) = true ∧
    detect_model_source ("../shared_2023/models/foo".toList) ≠ some .SharedLegacy :=
  ⟨by decide,
    detect_model_source_never_legacy_on_modern_marker.1
      ("../shared_2023/models/foo".toList) (by decide)⟩

/-- `StringInterner` (ch-ts-parser/src/arena.rs): the bump arena is modelled
as the list of allocated strings in allocation order, and an `ArenaStr` handle
as the index of its cell, so that two handles denote the same underlying
storage exactly when the indices are equal.  `interned` is the `FxHashMap`
from text to handle. -/
structure StringInterner where
  stored : List Str
  interned : List (Str × Nat)
deriving DecidableEq, Repr

/-- `StringInterner::new` (ch-ts-parser/src/arena.rs). -/
def StringInterner.new : StringInterner :=
  ⟨[], []⟩

/-- `FxHashMap::get` on the interner map. -/
def lookupN (k : Str) : List (Str × Nat) → Option Nat
  | [] => none
  | (k', v) :: t => if k' = k then some v else lookupN k t

/-- `FxHashMap::insert` on the interner map: replaces the value under an
existing key, else adds the binding. -/
def insertN (k : Str) (v : Nat) : List (Str × Nat) → List (Str × Nat)
  | [] => [(k, v)]
  | (k', v') :: t => if k' = k then (k, v) :: t else (k', v') :: insertN k v t

/-- `StringInterner::intern` (ch-ts-parser/src/arena.rs): return the existing
handle if the text was interned before, else allocate a new arena cell and
record its handle. -/
def StringInterner.intern (st : StringInterner) (s : Str) : Nat × StringInterner :=
  match lookupN s st.interned with
  | some h => (h, st)
  | none =>
    let h := st.stored.length
    (h, ⟨st.stored ++ [s], insertN s h st.interned⟩)

/-- Well-formedness of an interner: every recorded handle points at an arena
cell holding exactly the recorded text. -/
def StringInterner.Wf (st : StringInterner) : Prop :=
  ∀ p ∈ st.interned, st.stored.get? p.2 = some p.1

theorem lookupN_insertN_self (k : Str) (v : Nat) (l : List (Str × Nat)) :
    lookupN k (insertN k v l) = some v := by
  induction l with
  | nil => simp [lookupN, insertN]
  | cons p t ih =>
    obtain ⟨k', v'⟩ := p
    by_cases h : k' = k <;> simp [lookupN, insertN, h, ih]

theorem lookupN_mem (k : Str) (v : Nat) (l : List (Str × Nat))
    (h : lookupN k l = some v) : (k, v) ∈ l := by
  induction l with
  | nil => simp [lookupN] at h
  | cons p t ih =>
    obtain ⟨k', v'⟩ := p
    by_cases hk : k' = k
    · subst hk
      simp [lookupN] at h
      simp [h]
    · simp [lookupN, hk] at h
      exact List.mem_cons_of_mem _ (ih h)

theorem insertN_mem (k : Str) (v : Nat) (l : List (Str × Nat)) (p : Str × Nat)
    (h : p ∈ insertN k v l) : p = (k, v) ∨ p ∈ l := by
  induction l with
  | nil => simpa [insertN] using h
  | cons q t ih =>
    obtain ⟨k', v'⟩ := q
    by_cases hk : k' = k
    · subst hk
      simp [insertN] at h
      rcases h with h | h
      · exact Or.inl h
      · exact Or.inr (List.mem_cons_of_mem _ h)
    · simp only [insertN, if_neg hk, List.mem_cons] at h
      rcases h with h | h
      · exact Or.inr (by simp [h])
      · rcases ih h with h' | h'
        · exact Or.inl h'
        · exact Or.inr (List.mem_cons_of_mem _ h')

theorem StringInterner.wf_new : StringInterner.new.Wf := by
  intro p hp
  cases hp

theorem StringInterner.intern_eq_of_lookup_none (st : StringInterner) (s : Str)
    (hl : lookupN s st.interned = none) :
    st.intern s =
      (st.stored.length, ⟨st.stored ++ [s], insertN s st.stored.length st.interned⟩) := by
  rw [StringInterner.intern, hl]

theorem StringInterner.intern_eq_of_lookup_some (st : StringInterner) (s : Str)
    (h : Nat) (hl : lookupN s st.interned = some h) :
    st.intern s = (h, st) := by
  rw [StringInterner.intern, hl]

theorem StringInterner.intern_wf (st : StringInterner) (s : Str) (hwf : st.Wf) :
    (st.intern s).2.Wf := by
  rcases hl : lookupN s st.interned with _ | h
  · rw [st.intern_eq_of_lookup_none s hl]
    intro p hp
    show (st.stored ++ [s]).get? p.2 = some p.1
    rcases insertN_mem s st.stored.length st.interned p hp with hpe | hpm
    · subst hpe
      simp [List.get?_concat_length]
    · have hold := hwf p hpm
      have hlt : p.2 < st.stored.length := (List.get?_eq_some.mp hold).1
      rw [List.get?_append hlt]
      exact hold
  · rw [st.intern_eq_of_lookup_some s h hl]
    exact hwf

theorem StringInterner.intern_get (st : StringInterner) (s : Str) (hwf : st.Wf) :
    (st.intern s).2.stored.get? (st.intern s).1 = some s := by
  rcases hl : lookupN s st.interned with _ | h
  · rw [st.intern_eq_of_lookup_none s hl]
    show (st.stored ++ [s]).get? st.stored.length = some s
    simp [List.get?_concat_length]
  · rw [st.intern_eq_of_lookup_some s h hl]
    exact hwf (s, h) (lookupN_mem s h st.interned hl)

theorem StringInterner.intern_stored_mono (st : StringInterner) (s : Str)
    (i : Nat) (v : Str) (h : st.stored.get? i = some v) :
    (st.intern s).2.stored.get? i = some v := by
  rcases hl : lookupN s st.interned with _ | hdl
  · rw [st.intern_eq_of_lookup_none s hl]
    show (st.stored ++ [s]).get? i = some v
    have hlt : i < st.stored.length := (List.get?_eq_some.mp h).1
    rw [List.get?_append hlt]
    exact h
  · rw [st.intern_eq_of_lookup_some s hdl hl]
    exact h

theorem StringInterner.intern_lookup_after (st : StringInterner) (s : Str) :
    lookupN s (st.intern s).2.interned = some (st.intern s).1 := by
  rcases hl : lookupN s st.interned with _ | h
  · rw [st.intern_eq_of_lookup_none s hl]
    simp [lookupN_insertN_self]
  · rw [st.intern_eq_of_lookup_some s h hl]
    exact hl

/-- C8.  Within one pass, interning the same text twice returns the handle
recorded by the first call (same arena cell, same interner state); interning
two different texts yields handles of distinct arena cells, each holding its
own text. -/
theorem interner_spec (st : StringInterner) (s t : Str) (hwf : st.Wf) :
    ((st.intern s).2.intern s).1 = (st.intern s).1 ∧
    ((st.intern s).2.intern s).2 = (st.intern s).2 ∧
    (s ≠ t →
      ((((st.intern s).2.intern t).2.stored.get? (st.intern s).1 = some s ∧
        (((st.intern s).2.intern t).2.stored.get?
          ((st.intern s).2.intern t).1 = some t) ∧
        (st.intern s).1 ≠ ((st.intern s).2.intern t).1))) := by
  have hafter := st.intern_lookup_after s
  have hsecond : (st.intern s).2.intern s = ((st.intern s).1, (st.intern s).2) := by
    rw [StringInterner.intern, hafter]
  refine ⟨by rw [hsecond], by rw [hsecond], ?_⟩
  intro hne
  have hwf1 : (st.intern s).2.Wf := st.intern_wf s hwf
  have hget1 : (st.intern s).2.stored.get? (st.intern s).1 = some s :=
    st.intern_get s hwf
  have hget1' := (st.intern s).2.intern_stored_mono t (st.intern s).1 s hget1
  have hget2 : ((st.intern s).2.intern t).2.stored.get?
      ((st.intern s).2.intern t).1 = some t :=
    (st.intern s).2.intern_get t hwf1
  refine ⟨hget1', hget2, ?_⟩
  intro heq
  rw [heq, hget2] at hget1'
  exact hne (Option.some.inj hget1').symm

/-- Witness for C8 at two concrete strings interned into a fresh interner. -/
theorem interner_spec_witness :
    StringInterner.new.Wf ∧
    ("hello".toList ≠ "world".toList) ∧
    ((StringInterner.new.intern ("hello".toList)).2.intern ("hello".toList)).1
      = (StringInterner.new.intern ("hello".toList)).1 ∧
    (StringInterner.new.intern ("hello".toList)).1
      ≠ ((StringInterner.new.intern ("hello".toList)).2.intern ("world".toList)).1 :=
  ⟨StringInterner.wf_new, by decide,
    (interner_spec StringInterner.new ("hello".toList) ("world".toList)
      StringInterner.wf_new).1,
    ((interner_spec StringInterner.new ("hello".toList) ("world".toList)
      StringInterner.wf_new).2.2 (by decide)).2.2⟩

end CH

namespace CH

/-- `FxHashMap::get` with string keys, on the association-list model. -/
def alLookup {α : Type} (k : Str) : List (Str × α) → Option α
  | [] => none
  | (k', v) :: t => if k' = k then some v else alLookup k t

/-- `FxHashMap::insert` with string keys: replaces the value under an existing
key, else appends the binding. -/
def alInsert {α : Type} (k : Str) (v : α) : List (Str × α) → List (Str × α)
  | [] => [(k, v)]
  | (k', v') :: t => if k' = k then (k, v) :: t else (k', v') :: alInsert k v t

/-- `FxHashSet::insert`: adds the element when absent. -/
def setInsert (x : Str) (l : List Str) : List Str :=
  if x ∈ l then l else l ++ [x]

theorem alLookup_alInsert_self {α : Type} (k : Str) (v : α) (l : List (Str × α)) :
    alLookup k (alInsert k v l) = some v := by
  induction l with
  | nil => simp [alLookup, alInsert]
  | cons p t ih =>
    obtain ⟨k', v'⟩ := p
    by_cases h : k' = k <;> simp [alLookup, alInsert, h, ih]

theorem mem_setInsert_self (x : Str) (l : List Str) : x ∈ setInsert x l := by
  rw [setInsert]
  by_cases h : x ∈ l <;> simp [h]

theorem mem_setInsert_of_mem (x y : Str) (l : List Str) (h : x ∈ l) :
    x ∈ setInsert y l := by
  rw [setInsert]
  by_cases hy : y ∈ l <;> simp [hy, h]

theorem mem_foldl_setInsert_of_mem (es : List Str) (l : List Str) (x : Str)
    (h : x ∈ l) : x ∈ es.foldl (fun s e => setInsert e s) l := by
  induction es generalizing l with
  | nil => exact h
  | cons e es ih => exact ih (setInsert e l) (mem_setInsert_of_mem x e l h)

theorem mem_foldl_setInsert_of_mem_arg (es : List Str) (l : List Str) (e : Str)
    (h : e ∈ es) : e ∈ es.foldl (fun s e => setInsert e s) l := by
  induction es generalizing l with
  | nil => cases h
  | cons e' es ih =>
    rcases List.mem_cons.mp h with rfl | h'
    · exact mem_foldl_setInsert_of_mem es (setInsert e l) e (mem_setInsert_self e l)
    · exact ih (setInsert e' l) h'

/-- `ch_core::ModelCategory` (types/model.rs). -/
inductive ModelCategory where
  | Interface
  | Model
  | CodeGen
  | CodeGenForApi
  | CodeGenForm
  | CodeGenFormArray
deriving DecidableEq, Repr

/-- `ch_core::ModelReference` (types/model.rs). -/
structure ModelReference where
  name : Str
  category : ModelCategory
  source : ModelSource
deriving DecidableEq, Repr

/-- `ch_core::ModelDefinition` (types/model.rs). -/
structure ModelDefinition where
  name : Str
  source : ModelSource
  definition_path : Str
  exports : List Str
deriving DecidableEq, Repr

/-- `ch_core::ModelRegistry` (types/model.rs): two namespace-keyed model maps
plus two export-name sets. -/
structure ModelRegistry where
  legacy_models : List (Str × ModelDefinition)
  modern_models : List (Str × ModelDefinition)
  legacy_exports : List Str
  modern_exports : List Str
deriving DecidableEq, Repr

/-- `ModelRegistry::new` (types/model.rs). -/
def ModelRegistry.new : ModelRegistry :=
  ⟨[], [], [], []⟩

/-- `ModelRegistry::register` (types/model.rs): index every export name into
the namespace's export set, then insert the definition under its name into
that namespace's model map. -/
def ModelRegistry.register (r : ModelRegistry) (definition : ModelDefinition) :
    ModelRegistry :=
  match definition.source with
  | .SharedLegacy =>
    { r with
      legacy_exports :=
        definition.exports.foldl (fun s e => setInsert e s) r.legacy_exports
      legacy_models := alInsert definition.name definition r.legacy_models }
  | .Shared2023 =>
    { r with
      modern_exports :=
        definition.exports.foldl (fun s e => setInsert e s) r.modern_exports
      modern_models := alInsert definition.name definition r.modern_models }

/-- `ModelRegistry::is_legacy_export` (types/model.rs). -/
def ModelRegistry.is_legacy_export (r : ModelRegistry) (name : Str) : Bool :=
  decide (name ∈ r.legacy_exports)

/-- `ModelRegistry::is_modern_export` (types/model.rs). -/
def ModelRegistry.is_modern_export (r : ModelRegistry) (name : Str) : Bool :=
  decide (name ∈ r.modern_exports)

/-- `ModelRegistry::is_export_from` (types/model.rs). -/
def ModelRegistry.is_export_from (r : ModelRegistry) (name : Str)
    (source : ModelSource) : Bool :=
  match source with
  | .SharedLegacy => r.is_legacy_export name
  | .Shared2023 => r.is_modern_export name

/-- `ModelRegistry::get_legacy_model` (types/model.rs). -/
def ModelRegistry.get_legacy_model (r : ModelRegistry) (name : Str) :
    Option ModelDefinition :=
  alLookup name r.legacy_models

/-- `ModelRegistry::get_modern_model` (types/model.rs). -/
def ModelRegistry.get_modern_model (r : ModelRegistry) (name : Str) :
    Option ModelDefinition :=
  alLookup name r.modern_models

/-- The model map of the given namespace. -/
def ModelRegistry.modelsOf (r : ModelRegistry) : ModelSource →
    List (Str × ModelDefinition)
  | .SharedLegacy => r.legacy_models
  | .Shared2023 => r.modern_models

/-- The export-name set of the given namespace. -/
def ModelRegistry.exportsOf (r : ModelRegistry) : ModelSource → List Str
  | .SharedLegacy => r.legacy_exports
  | .Shared2023 => r.modern_exports

/-- C6.  `register` adds every export name of the definition to its
namespace's export-name set and maps its name to the definition in that
namespace's model map; a second registration under the same name replaces the
first, so the later definition is returned by lookup; and registration never
removes previously indexed export names (in either namespace). -/
theorem registry_register_spec (r : ModelRegistry) (d : ModelDefinition) :
    (∀ e ∈ d.exports, e ∈ (r.register d).exportsOf d.source) ∧
    (alLookup d.name ((r.register d).modelsOf d.source) = some d) ∧
    (∀ d1 d2 : ModelDefinition, d1.name = d2.name →
      alLookup d2.name (((r.register d1).register d2).modelsOf d2.source) = some d2) ∧
    (∀ src : ModelSource, ∀ e ∈ r.exportsOf src, e ∈ (r.register d).exportsOf src) := by
  have hcore : ∀ (r' : ModelRegistry) (d' : ModelDefinition),
      alLookup d'.name ((r'.register d').modelsOf d'.source) = some d' := by
    intro r' d'
    rcases hs : d'.source with _ | _ <;>
      simp [ModelRegistry.register, ModelRegistry.modelsOf, hs,
        alLookup_alInsert_self]
  refine ⟨?_, hcore r d, ?_, ?_⟩
  · intro e he
    rcases hs : d.source with _ | _ <;>
      · simp only [ModelRegistry.register, ModelRegistry.exportsOf, hs]
        exact mem_foldl_setInsert_of_mem_arg d.exports _ e he
  · intro d1 d2 hname
    exact hcore (r.register d1) d2
  · intro src e he
    rcases hs : d.source with _ | _ <;> rcases src with _ | _ <;>
      simp only [ModelRegistry.register, ModelRegistry.exportsOf, hs] at he ⊢ <;>
        first
          | exact mem_foldl_setInsert_of_mem d.exports _ e he
          | exact he

/-- Example model definition (legacy Foo), for concrete witnesses. -/
def defFooEx : ModelDefinition :=
  ⟨"Foo".toList, .SharedLegacy, "shared/models/foo.ts".toList,
    ["Foo".toList, "FooModel".toList]⟩

/-- Example replacement definition with the same name, for concrete
witnesses. -/
def defFooEx2 : ModelDefinition :=
  ⟨"Foo".toList, .SharedLegacy, "shared/models/foo2.ts".toList,
    ["FooCodeGen".toList]⟩

/-- Witness for C6 at a concrete registry and definition. -/
theorem registry_register_spec_witness :
    ("Foo".toList ∈ (ModelRegistry.new.register defFooEx).exportsOf .SharedLegacy) ∧
    (alLookup "Foo".toList
        ((ModelRegistry.new.register defFooEx).modelsOf .SharedLegacy) = some defFooEx) ∧
    (alLookup "Foo".toList
        (((ModelRegistry.new.register defFooEx).register defFooEx2).modelsOf
          .SharedLegacy) = some defFooEx2) :=
  ⟨(registry_register_spec ModelRegistry.new defFooEx).1 ("Foo".toList) (by decide),
    (registry_register_spec ModelRegistry.new defFooEx).2.1,
    (registry_register_spec ModelRegistry.new defFooEx).2.2.1 defFooEx defFooEx2 rfl⟩

end CH

namespace CH

/-- `ch_core::FileId` (types/file.rs): newtype over the path hash. -/
structure FileId where
  id : Nat
deriving DecidableEq, Repr

/-- `ch_core::FileInfo` (types/file.rs). -/
structure FileInfo where
  id : FileId
  path : Str
  content_hash : Nat
  imports : List ImportInfo
  model_refs : List ModelReference
  status : MigrationStatus
  last_scanned : Nat
deriving DecidableEq, Repr

/-- `ScanCache` (ch-scanner/src/cache.rs): the `RwLock<FxHashMap>` of results,
keyed by path. -/
structure ScanCache where
  files : List (Str × FileInfo)
deriving DecidableEq, Repr

/-- `ScanCache::new` (ch-scanner/src/cache.rs). -/
def ScanCache.new : ScanCache :=
  ⟨[]⟩

/-- `ScanCache::insert` (ch-scanner/src/cache.rs): keys the record by its own
path, replacing any previous record under that path. -/
def ScanCache.insert (c : ScanCache) (file : FileInfo) : ScanCache :=
  ⟨alInsert file.path file c.files⟩

/-- `ScanCache::get` (ch-scanner/src/cache.rs): returns a clone (an owned
value) of the stored record, if present. -/
def ScanCache.get (c : ScanCache) (path : Str) : Option FileInfo :=
  alLookup path c.files

/-- C7.  Inserting two records with the same path leaves exactly the second
one retrievable under that path, and `get` returns it by value (an owned
copy): the returned record is a value independent of any later cache
mutation. -/
theorem cache_insert_replace (c : ScanCache) (f1 f2 : FileInfo)
    (hpath : f1.path = f2.path) (hstatus : f1.status ≠ f2.status) :
    ((c.insert f1).insert f2).get f1.path = some f2 ∧
    ((c.insert f1).insert f2).get f1.path ≠ some f1 := by
  have hget : ((c.insert f1).insert f2).get f1.path = some f2 := by
    rw [ScanCache.get, ScanCache.insert, hpath]
    exact alLookup_alInsert_self f2.path f2 _
  refine ⟨hget, ?_⟩
  rw [hget]
  intro heq
  exact hstatus (congrArg FileInfo.status (Option.some.inj heq)).symm

/-- Example cached file record with Legacy status, for concrete witnesses. -/
def fileLegacyEx : FileInfo :=
  ⟨⟨1⟩, "src/foo.ts".toList, 11, [], [], .Legacy, 0⟩

/-- Example cached file record with Migrated status at the same path, for
concrete witnesses. -/
def fileMigratedEx : FileInfo :=
  ⟨⟨1⟩, "src/foo.ts".toList, 12, [], [], .Migrated, 1⟩

/-- Witness for C7 at a concrete cache and two records on one path. -/
theorem cache_insert_replace_witness :
    fileLegacyEx.path = fileMigratedEx.path ∧
    fileLegacyEx.status ≠ fileMigratedEx.status ∧
    ((ScanCache.new.insert fileLegacyEx).insert fileMigratedEx).get
        fileLegacyEx.path = some fileMigratedEx :=
  ⟨rfl, by decide,
    (cache_insert_replace ScanCache.new fileLegacyEx fileMigratedEx rfl
      (by decide)).1⟩

end CH

namespace CH

/-- The per-import classification of `FileAnalyzer::analyze_file_inner`
(ch-scanner/src/analyzer.rs, the loop over `&mut imports`): run the namespace
matcher on the path; with a registry, accept its verdict only when at least
one bound name is a verified export of the detected namespace; without a
registry accept it unconditionally; otherwise clear the source.  The matcher
`detect_model_source_with(_, matcher)` is passed in as `detect`. -/
def classify_source (detect : Str → Option ModelSource)
    (registry : Option ModelRegistry) (imp : ImportInfo) : Option ModelSource :=
  match detect imp.path with
  | some detected_source =>
    match registry with
    | some reg =>
      if imp.names.any (fun name => reg.is_export_from name detected_source)
      then some detected_source
      else none
    | none => some detected_source
  | none => none

/-- The whole import-classification pass of `analyze_file_inner`: every import
gets its `source` field reassigned by `classify_source`. -/
def analyze_imports (detect : Str → Option ModelSource)
    (registry : Option ModelRegistry) (imports : List ImportInfo) :
    List ImportInfo :=
  imports.map (fun imp => { imp with source := classify_source detect registry imp })

/-- C3.  For an import whose path the matcher classifies Legacy but none of
whose bound names is a registered Legacy export, registry-filtered mode
assigns source `None` while path-only mode assigns `Legacy`. -/
theorem registry_filter_suppresses_false_positive
    (detect : Str → Option ModelSource) (r : ModelRegistry) (imp : ImportInfo)
    (hdet : detect imp.path = some .SharedLegacy)
    (hnames : ∀ n ∈ imp.names, r.is_export_from n .SharedLegacy = false) :
    classify_source detect (some r) imp = none ∧
    classify_source detect none imp = some .SharedLegacy := by
  have hany : (imp.names.any fun name => r.is_export_from name .SharedLegacy) = false := by
    rw [List.any_eq_false]
    intro n hn
    simp [hnames n hn]
  constructor
  · rw [classify_source, hdet]
    simp [hany]
  · rw [classify_source, hdet]

/-- Example registry knowing only the legacy model Foo, for concrete
witnesses. -/
def registryFooEx : ModelRegistry :=
  ModelRegistry.new.register defFooEx

/-- Example legacy-path import binding only the unregistered name Helper, for
concrete witnesses. -/
def impHelperEx : ImportInfo :=
  ⟨"../shared/models/helper".toList, .Named, ["Helper".toList], none, ⟨3, 0, 0⟩⟩

/-- Witness for C3 at the concrete matcher, registry and import. -/
theorem registry_filter_suppresses_false_positive_witness :
    detect_model_source impHelperEx.path = some .SharedLegacy ∧
    (∀ n ∈ impHelperEx.names, registryFooEx.is_export_from n .SharedLegacy = false) ∧
    classify_source detect_model_source (some registryFooEx) impHelperEx = none ∧
    classify_source detect_model_source none impHelperEx = some .SharedLegacy :=
  ⟨by decide, by decide,
    (registry_filter_suppresses_false_positive detect_model_source registryFooEx
      impHelperEx (by decide) (by decide)).1,
    (registry_filter_suppresses_false_positive detect_model_source registryFooEx
      impHelperEx (by decide) (by decide)).2⟩

theorem build_sideEffect_names_nil (location : SourceLocation) (tOnly : Bool)
    (ops : List BuilderOp) (d : Str → Option ModelSource) (info : ImportInfo)
    (h : (runOps location tOnly ops).build d = some info)
    (hk : info.kind = .SideEffect) : info.names = [] := by
  set b := runOps location tOnly ops with hb
  rcases hsp : b.source_path with _ | path
  · rw [BumpImportBuilder.build, hsp] at h
    exact absurd h (by simp)
  · rw [BumpImportBuilder.build, hsp] at h
    simp only [Option.some.injEq] at h
    subst h
    simp only at hk ⊢
    rcases ht : b.is_type_only with _ | _
    · rw [ht] at hk
      simp only [if_false, Bool.false_eq_true] at hk
      rcases applyOps_kind_cases ops (BumpImportBuilder.new location tOnly) with
        hkc | hkc | hkc | hkc
      · have hknone : b.kind = none := by rw [hb, runOps, hkc]; rfl
        rw [hknone] at hk
        rcases hni : b.names.isEmpty with _ | _
        · rw [hni] at hk
          simp at hk
        · exact List.isEmpty_iff.mp hni
      all_goals
        exfalso
        rw [hb, runOps] at hk
        rw [hkc] at hk
        simp at hk
    · rw [ht] at hk
      simp at hk

/-- C10.  With a registry, any import with an empty name list is assigned
source `None` even if its path matches a model subpath (side-effect and
dynamic imports always have empty name lists); hence a file whose only
path-matching imports have empty name lists gets status `NoModels` in
registry-filtered mode, while path-only mode classifies purely by path. -/
theorem empty_names_registry_filtering (detect : Str → Option ModelSource)
    (r : ModelRegistry) :
    (∀ imp : ImportInfo, imp.names = [] →
      classify_source detect (some r) imp = none) ∧
    (∀ imp : ImportInfo, classify_source detect none imp = detect imp.path) ∧
    (∀ (path : Str) (source : Option ModelSource) (location : SourceLocation),
      (create_dynamic_bump_import path source location).names = []) ∧
    (∀ (location : SourceLocation) (tOnly : Bool) (ops : List BuilderOp)
        (d : Str → Option ModelSource) (info : ImportInfo),
      (runOps location tOnly ops).build d = some info →
      info.kind = .SideEffect → info.names = []) ∧
    (∀ imports : List ImportInfo,
      (∀ imp ∈ imports, detect imp.path ≠ none → imp.names = []) →
      determine_status (analyze_imports detect (some r) imports) = .NoModels) := by
  have hempty : ∀ imp : ImportInfo, imp.names = [] →
      classify_source detect (some r) imp = none := by
    intro imp hnil
    rcases hd : detect imp.path with _ | d
    · rw [classify_source, hd]
    · rw [classify_source, hd, hnil]
      simp
  refine ⟨hempty, ?_, fun _ _ _ => rfl, build_sideEffect_names_nil, ?_⟩
  · intro imp
    rcases hd : detect imp.path with _ | d <;> rw [classify_source, hd]
  · intro imports hnames
    have hall : ∀ imp' ∈ analyze_imports detect (some r) imports,
        imp'.source = none := by
      intro imp' hmem
      rcases List.mem_map.mp hmem with ⟨imp, hin, rfl⟩
      show classify_source detect (some r) imp = none
      rcases hd : detect imp.path with _ | d
      · rw [classify_source, hd]
      · exact hempty imp (hnames imp hin (by rw [hd]; simp))
    have h1 : anySource (analyze_imports detect (some r) imports) .SharedLegacy
        = false := by
      rcases h : anySource (analyze_imports detect (some r) imports) .SharedLegacy
        with _ | _
      · rfl
      · obtain ⟨imp', hm, hs⟩ := (anySource_iff _ _).mp h
        rw [hall imp' hm] at hs
        cases hs
    have h2 : anySource (analyze_imports detect (some r) imports) .Shared2023
        = false := by
      rcases h : anySource (analyze_imports detect (some r) imports) .Shared2023
        with _ | _
      · rfl
      · obtain ⟨imp', hm, hs⟩ := (anySource_iff _ _).mp h
        rw [hall imp' hm] at hs
        cases hs
    rw [determine_status, determineStatusGo_eq, h1, h2]
    rfl

/-- Example side-effect import of a legacy model path, for concrete
witnesses. -/
def impPolyfillEx : ImportInfo :=
  ⟨"../shared/models/foo".toList, .SideEffect, [], none, ⟨1, 0, 0⟩⟩

/-- Example dynamic import of a modern model path, for concrete witnesses. -/
def impDynamicEx : ImportInfo :=
  create_dynamic_bump_import ("../shared_2023/models/bar".toList) none ⟨2, 0, 0⟩

/-- Witness for C10 at the concrete matcher, registry and two empty-name
imports of model-bearing paths. -/
theorem empty_names_registry_filtering_witness :
    impPolyfillEx.names = [] ∧
    (∀ imp ∈ [impPolyfillEx, impDynamicEx],
      detect_model_source imp.path ≠ none → imp.names = []) ∧
    classify_source detect_model_source (some registryFooEx) impPolyfillEx = none ∧
    determine_status
        (analyze_imports detect_model_source (some registryFooEx)
          [impPolyfillEx, impDynamicEx]) = .NoModels :=
  ⟨rfl, by decide,
    (empty_names_registry_filtering detect_model_source registryFooEx).1
      impPolyfillEx rfl,
    (empty_names_registry_filtering detect_model_source registryFooEx).2.2.2.2
      [impPolyfillEx, impDynamicEx] (by decide)⟩

end CH

namespace CH

/-- `ch_core::ExportKind` (types/model.rs). -/
inductive ExportKind where
  | Class
  | Interface
  | Named
  | ReExport
deriving DecidableEq, Repr

/-- `BumpExportInfo` (ch-ts-parser/src/exports.rs). -/
structure BumpExportInfo where
  name : Str
  kind : ExportKind
  location : SourceLocation
  reexport_source : Option Str
deriving DecidableEq, Repr

/-- One capture routed by `extract_exports_arena` (ch-ts-parser/src/exports.rs):
the five capture roles of the export query.  The query cursor yields the
captures of each match in document order; the stream below is the flattened
sequence of captures over all matches, which is exactly what the extraction
loop consumes (it keeps no per-match state).  Captures whose node text is not
valid UTF-8 are skipped by the loop and therefore never appear as events. -/
inductive ExportCapture where
  | classCap (name : Str) (location : SourceLocation)
  | interfaceCap (name : Str) (location : SourceLocation)
  | namedCap (name : Str) (location : SourceLocation)
  | reexportSourceCap (text : Str)
  | reexportNameCap (name : Str) (location : SourceLocation)
deriving DecidableEq, Repr

/-- The body of the capture loop in `extract_exports_arena`
(ch-ts-parser/src/exports.rs): class/interface/named captures push a record
with no re-export source; a re-export source capture replaces the pending
source; a re-export name capture pushes a record carrying the current pending
source. -/
def extractStep :
    Option Str × List BumpExportInfo → ExportCapture →
      Option Str × List BumpExportInfo
  | (pending, out), .classCap n loc => (pending, out ++ [⟨n, .Class, loc, none⟩])
  | (pending, out), .interfaceCap n loc =>
    (pending, out ++ [⟨n, .Interface, loc, none⟩])
  | (pending, out), .namedCap n loc => (pending, out ++ [⟨n, .Named, loc, none⟩])
  | (_, out), .reexportSourceCap t => (some t, out)
  | (pending, out), .reexportNameCap n loc =>
    (pending, out ++ [⟨n, .ReExport, loc, pending⟩])

/-- The `(line, column)` sort key comparison used by the final
`sort_by_key` of `extract_exports_arena`. -/
def locKeyLe (a b : BumpExportInfo) : Bool :=
  decide (a.location.line < b.location.line ∨
    (a.location.line = b.location.line ∧ a.location.column ≤ b.location.column))

/-- Stable insertion step for the location sort. -/
def insertSorted (x : BumpExportInfo) :
    List BumpExportInfo → List BumpExportInfo
  | [] => [x]
  | y :: t => if locKeyLe y x then y :: insertSorted x t else x :: y :: t

/-- The stable `sort_by_key(|e| (e.location.line, e.location.column))` at the
end of `extract_exports_arena`. -/
def sortByLocation : List BumpExportInfo → List BumpExportInfo
  | [] => []
  | x :: t => insertSorted x (sortByLocation t)

/-- `extract_exports_arena` (ch-ts-parser/src/exports.rs) as a function of its
capture stream: fold the loop body from no pending source and no records,
then sort by location. -/
def extract_exports_arena (captures : List ExportCapture) :
    List BumpExportInfo :=
  sortByLocation ((captures.foldl extractStep (none, [])).2)

/-- Whether every re-export name capture in the stream is preceded by some
re-export source capture; the flag records whether one was already seen. -/
def reexportNamesCovered : Bool → List ExportCapture → Bool
  | _, [] => true
  | _, .reexportSourceCap _ :: t => reexportNamesCovered true t
  | seen, .reexportNameCap _ _ :: t => seen && reexportNamesCovered seen t
  | seen, .classCap _ _ :: t => reexportNamesCovered seen t
  | seen, .interfaceCap _ _ :: t => reexportNamesCovered seen t
  | seen, .namedCap _ _ :: t => reexportNamesCovered seen t

theorem mem_insertSorted (a x : BumpExportInfo) (l : List BumpExportInfo) :
    a ∈ insertSorted x l ↔ a = x ∨ a ∈ l := by
  induction l with
  | nil => simp [insertSorted]
  | cons y t ih =>
    by_cases h : locKeyLe y x = true
    · simp only [insertSorted, if_pos h, List.mem_cons, ih]
      tauto
    · simp [insertSorted, h, ih]

theorem mem_sortByLocation (a : BumpExportInfo) (l : List BumpExportInfo) :
    a ∈ sortByLocation l ↔ a ∈ l := by
  induction l with
  | nil => simp [sortByLocation]
  | cons x t ih => simp [sortByLocation, mem_insertSorted, ih]

theorem extractFold_nonReexport_none (captures : List ExportCapture)
    (pending : Option Str) (out : List BumpExportInfo)
    (hout : ∀ r ∈ out, r.kind ≠ .ReExport → r.reexport_source = none) :
    ∀ r ∈ (captures.foldl extractStep (pending, out)).2,
      r.kind ≠ .ReExport → r.reexport_source = none := by
  induction captures generalizing pending out with
  | nil => exact hout
  | cons ev evs ih =>
    rw [List.foldl_cons]
    cases ev with
    | classCap n loc =>
      refine ih pending _ ?_
      intro r hr
      rcases List.mem_append.mp hr with hr | hr
      · exact hout r hr
      · intro _
        simp only [List.mem_singleton] at hr
        rw [hr]
    | interfaceCap n loc =>
      refine ih pending _ ?_
      intro r hr
      rcases List.mem_append.mp hr with hr | hr
      · exact hout r hr
      · intro _
        simp only [List.mem_singleton] at hr
        rw [hr]
    | namedCap n loc =>
      refine ih pending _ ?_
      intro r hr
      rcases List.mem_append.mp hr with hr | hr
      · exact hout r hr
      · intro _
        simp only [List.mem_singleton] at hr
        rw [hr]
    | reexportSourceCap t => exact ih (some t) out hout
    | reexportNameCap n loc =>
      refine ih pending _ ?_
      intro r hr
      rcases List.mem_append.mp hr with hr | hr
      · exact hout r hr
      · intro hk
        simp only [List.mem_singleton] at hr
        rw [hr] at hk
        exact absurd rfl hk

theorem extractFold_reexport_some (captures : List ExportCapture)
    (pending : Option Str) (out : List BumpExportInfo)
    (hseen : reexportNamesCovered pending.isSome captures = true)
    (hout : ∀ r ∈ out, r.kind = .ReExport → r.reexport_source.isSome) :
    ∀ r ∈ (captures.foldl extractStep (pending, out)).2,
      r.kind = .ReExport → r.reexport_source.isSome := by
  induction captures generalizing pending out with
  | nil => exact hout
  | cons ev evs ih =>
    rw [List.foldl_cons]
    cases ev with
    | classCap n loc =>
      refine ih pending _ hseen ?_
      intro r hr
      rcases List.mem_append.mp hr with hr | hr
      · exact hout r hr
      · simp only [List.mem_singleton] at hr
        rw [hr]
        intro hk
        cases hk
    | interfaceCap n loc =>
      refine ih pending _ hseen ?_
      intro r hr
      rcases List.mem_append.mp hr with hr | hr
      · exact hout r hr
      · simp only [List.mem_singleton] at hr
        rw [hr]
        intro hk
        cases hk
    | namedCap n loc =>
      refine ih pending _ hseen ?_
      intro r hr
      rcases List.mem_append.mp hr with hr | hr
      · exact hout r hr
      · simp only [List.mem_singleton] at hr
        rw [hr]
        intro hk
        cases hk
    | reexportSourceCap t =>
      refine ih (some t) out ?_ hout
      simpa [reexportNamesCovered] using hseen
    | reexportNameCap n loc =>
      rw [reexportNamesCovered] at hseen
      rcases Bool.and_eq_true _ _ |>.mp hseen with ⟨hp, hrest⟩
      refine ih pending _ hrest ?_
      intro r hr
      rcases List.mem_append.mp hr with hr | hr
      · exact hout r hr
      · simp only [List.mem_singleton] at hr
        rw [hr]
        intro _
        exact hp

/-- C5 counterexample.  On the capture stream of
`export { Foo } from './foo'` — where, in document order, the re-export name
capture precedes the re-export source capture of the same match — the
extraction loop emits a `ReExport` record whose `reexport_source` is `None`,
falsifying "every record with kind ReExport has a Some reexport_source". -/
theorem export_reexport_source_counterexample :
    ∃ r ∈ extract_exports_arena
        [.reexportNameCap ("Foo".toList) ⟨1, 9, 9⟩,
          .reexportSourceCap ("./foo".toList)],
      r.kind = .ReExport ∧ r.reexport_source = none := by
  refine ⟨⟨"Foo".toList, .ReExport, ⟨1, 9, 9⟩, none⟩, ?_, rfl, rfl⟩
  decide

/-- C5 (amended).  Every record produced by export extraction satisfies:
`reexport_source` is `Some` only for kind `ReExport`, and class, interface
and named records always carry `None`; moreover, whenever every re-export
name capture in the stream is preceded by some re-export source capture, every
`ReExport` record carries a `Some` source. -/
theorem export_reexport_source_spec (captures : List ExportCapture) :
    (∀ r ∈ extract_exports_arena captures,
      (r.reexport_source.isSome = true → r.kind = .ReExport) ∧
      ((r.kind = .Class ∨ r.kind = .Interface ∨ r.kind = .Named) →
        r.reexport_source = none)) ∧
    (reexportNamesCovered false captures = true →
      ∀ r ∈ extract_exports_arena captures,
        r.kind = .ReExport → r.reexport_source.isSome = true) := by
  constructor
  · intro r hr
    have hr' : r ∈ (captures.foldl extractStep (none, [])).2 :=
      (mem_sortByLocation r _).mp hr
    have hbase : ∀ q ∈ ([] : List BumpExportInfo),
        q.kind ≠ .ReExport → q.reexport_source = none := by
      intro q hq
      cases hq
    have hnone := extractFold_nonReexport_none captures none [] hbase r hr'
    constructor
    · intro hsome
      by_contra hk
      rw [hnone hk] at hsome
      cases hsome
    · intro hk
      refine hnone ?_
      rcases hk with hk | hk | hk <;> rw [hk] <;> intro h <;> cases h
  · intro hcov r hr
    have hr' : r ∈ (captures.foldl extractStep (none, [])).2 :=
      (mem_sortByLocation r _).mp hr
    have hbase : ∀ q ∈ ([] : List BumpExportInfo),
        q.kind = .ReExport → q.reexport_source.isSome = true := by
      intro q hq
      cases hq
    exact extractFold_reexport_some captures none [] hcov hbase r hr'

/-- Witness for C5 (amended), on a stream whose source capture precedes the
re-export name capture. -/
theorem export_reexport_source_spec_witness :
    reexportNamesCovered false
        [.reexportSourceCap ("./foo".toList),
          .reexportNameCap ("Foo".toList) ⟨1, 9, 9⟩] = true ∧
    (∀ r ∈ extract_exports_arena
        [.reexportSourceCap ("./foo".toList),
          .reexportNameCap ("Foo".toList) ⟨1, 9, 9⟩],
      r.kind = .ReExport → r.reexport_source.isSome = true) :=
  ⟨by decide,
    (export_reexport_source_spec
      [.reexportSourceCap ("./foo".toList),
        .reexportNameCap ("Foo".toList) ⟨1, 9, 9⟩]).2 (by decide)⟩

end CH

namespace CH

/-- What the filesystem reports for a path: absent, a regular file, or a
directory.  `Utf8Path::exists` is true for `file` and `dir`; `is_dir` only
for `dir`. -/
inductive PathKind where
  | missing
  | file
  | dir
deriving DecidableEq, Repr

/-- `ScanConfig` (ch-scanner/src/lib.rs). -/
structure ScanConfig where
  root : Str
  skip_dirs : List Str
  follow_links : Bool
  shared_path : Option Str
  shared_2023_path : Option Str
  use_registry : Bool
deriving DecidableEq, Repr

/-- `ScanError` (ch-scanner/src/error.rs), with I/O payloads elided. -/
inductive ScanError where
  | Walk
  | Read (path : Str)
  | Parse (path : Str)
  | Config (message : Str)
  | NonUtf8Path (path : Str)
deriving DecidableEq, Repr

/-- `ScanStats` (ch-scanner/src/stats.rs); the Rust field for the Partial
counter is named after the status, which is a reserved word here, so it is
called `partialCount`. -/
structure ScanStats where
  total : Nat
  legacy : Nat
  migrated : Nat
  partialCount : Nat
  no_models : Nat
  errors : Nat
deriving DecidableEq, Repr

/-- `ScanStats::new` (ch-scanner/src/stats.rs): all counters at zero. -/
def ScanStats.new : ScanStats :=
  ⟨0, 0, 0, 0, 0, 0⟩

/-- `Scanner` (ch-scanner/src/lib.rs). -/
structure Scanner where
  config : ScanConfig
  model_path_matcher : Str → Option ModelSource
  registry : ModelRegistry
  cache : ScanCache
  stats : ScanStats

/-- The registry-building step of `Scanner::new_with_matcher`
(ch-scanner/src/lib.rs): when the registry is enabled and both shared paths
are configured, the outcome of `RegistryBuilder::build` (passed in as
`buildResult`, since building reads the filesystem); otherwise an empty
registry. -/
def chooseRegistry (config : ScanConfig)
    (buildResult : Except ScanError ModelRegistry) :
    Except ScanError ModelRegistry :=
  if config.use_registry then
    match config.shared_path, config.shared_2023_path with
    | some _, some _ => buildResult
    | _, _ => .ok ModelRegistry.new
  else .ok ModelRegistry.new

/-- `Scanner::new_with_matcher` (ch-scanner/src/lib.rs): reject a root that
does not exist, then a root that is not a directory, both with `Config`
errors carrying the formatted message; then build the registry (propagating
its error) and assemble the scanner with a fresh cache and zeroed stats. -/
def Scanner.new_with_matcher (fs : Str → PathKind)
    (buildResult : Except ScanError ModelRegistry) (config : ScanConfig)
    (matcher : Str → Option ModelSource) : Except ScanError Scanner :=
  if fs config.root = .missing then
    .error (.Config ("root path does not exist: ".toList ++ config.root))
  else if fs config.root ≠ .dir then
    .error (.Config ("root path is not a directory: ".toList ++ config.root))
  else
    match chooseRegistry config buildResult with
    | .error e => .error e
    | .ok registry =>
      .ok ⟨config, matcher, registry, ScanCache.new, ScanStats.new⟩

/-- C9.  A missing root fails construction with the does-not-exist `Config`
error; an existing non-directory root fails with the not-a-directory `Config`
error (in both cases the error is returned to the caller and no scanner
value exists); a directory root never fails root validation — construction
is then exactly registry building followed by scanner assembly, and any
error it returns is the propagated registry-build error. -/
theorem scanner_new_root_validation (fs : Str → PathKind)
    (buildResult : Except ScanError ModelRegistry) (config : ScanConfig)
    (matcher : Str → Option ModelSource) :
    (fs config.root = .missing →
      Scanner.new_with_matcher fs buildResult config matcher =
        .error (.Config ("root path does not exist: ".toList ++ config.root))) ∧
    (fs config.root = .file →
      Scanner.new_with_matcher fs buildResult config matcher =
        .error (.Config ("root path is not a directory: ".toList ++ config.root))) ∧
    (fs config.root = .dir →
      Scanner.new_with_matcher fs buildResult config matcher =
        (chooseRegistry config buildResult).map
          (fun registry => ⟨config, matcher, registry, ScanCache.new, ScanStats.new⟩)) ∧
    (fs config.root = .dir →
      ∀ e : ScanError,
        Scanner.new_with_matcher fs buildResult config matcher = .error e →
        buildResult = .error e ∧ config.use_registry = true) := by
  refine ⟨?_, ?_, ?_, ?_⟩
  · intro h
    rw [Scanner.new_with_matcher, h]
    simp
  · intro h
    rw [Scanner.new_with_matcher, h]
    simp
  · intro h
    rw [Scanner.new_with_matcher, h]
    rcases hr : chooseRegistry config buildResult with e | registry <;>
      simp [hr, Except.map]
  · intro h e herr
    rw [Scanner.new_with_matcher, h] at herr
    rcases hr : chooseRegistry config buildResult with e' | registry
    · rw [hr] at herr
      simp only [reduceCtorEq, if_false, ne_eq, not_true_eq_false,
        Except.error.injEq] at herr
      subst herr
      rw [chooseRegistry] at hr
      rcases hur : config.use_registry with _ | _
      · rw [hur] at hr
        simp at hr
      · rw [hur] at hr
        simp only [if_true] at hr
        rcases hsp : config.shared_path with _ | sp <;>
          rcases hsp2 : config.shared_2023_path with _ | sp2 <;>
            rw [hsp, hsp2] at hr <;> simp_all
    · rw [hr] at herr
      cases herr

/-- Example configuration rooted at repo/src, for concrete witnesses. -/
def cfgEx : ScanConfig :=
  ⟨"repo/src".toList, [], false, none, none, false⟩

/-- Witness for C9: a filesystem where the root is missing, and one where it
is a plain file. -/
theorem scanner_new_root_validation_witness :
    ((fun _ : Str => PathKind.missing) cfgEx.root = .missing ∧
      Scanner.new_with_matcher (fun _ => PathKind.missing) (.ok ModelRegistry.new)
          cfgEx detect_model_source =
        .error (.Config ("root path does not exist: ".toList ++ cfgEx.root))) ∧
    ((fun _ : Str => PathKind.file) cfgEx.root = .file ∧
      Scanner.new_with_matcher (fun _ => PathKind.file) (.ok ModelRegistry.new)
          cfgEx detect_model_source =
        .error (.Config ("root path is not a directory: ".toList ++ cfgEx.root))) :=
  ⟨⟨rfl,
      (scanner_new_root_validation (fun _ => PathKind.missing)
        (.ok ModelRegistry.new) cfgEx detect_model_source).1 rfl⟩,
    ⟨rfl,
      (scanner_new_root_validation (fun _ => PathKind.file)
        (.ok ModelRegistry.new) cfgEx detect_model_source).2.1 rfl⟩⟩

end CH
